import Mathlib

/-!
# Verification of the Scavenger Mine miner coordinator

Shallow embedding of the Python sources (`py_miner.py`,
`chayvottungaddresstheolist.py`, `fullauto&workerrandom.py`) and proofs of the
specification claims about them.  Python strings are modelled as Lean
`String`/`List Char`, Python arbitrary-precision integers as `Int`/`Nat`,
Python dictionaries of string fields as structures or association lists, and
the stateful loops as explicit state-passing functions over scripts of
external events.
-/

namespace Miner

/-! ## Python `int(s, 16)` parsing

`int(s, 16)` strips surrounding whitespace, accepts an optional sign, an
optional `0x`/`0X` prefix, and hexadecimal digits optionally separated by
single underscores.  (Only ASCII whitespace and digits are modelled.)
-/

/-- ASCII whitespace characters stripped by Python's `int()`. -/
def isPySpace (c : Char) : Bool :=
  c.toNat = 32 || c.toNat = 9 || c.toNat = 10 || c.toNat = 13 ||
    c.toNat = 11 || c.toNat = 12

/-- Hexadecimal digit test, as accepted by `int(s, 16)` (ASCII codes for
`0`-`9`, `a`-`f`, `A`-`F`). -/
def isHexDigit (c : Char) : Bool :=
  (48 ≤ c.toNat && c.toNat ≤ 57) || (97 ≤ c.toNat && c.toNat ≤ 102) ||
    (65 ≤ c.toNat && c.toNat ≤ 70)

/-- Numeric value of a hexadecimal digit. -/
def hexVal (c : Char) : Nat :=
  if 48 ≤ c.toNat && c.toNat ≤ 57 then c.toNat - 48
  else if 97 ≤ c.toNat && c.toNat ≤ 102 then c.toNat - 97 + 10
  else if 65 ≤ c.toNat && c.toNat ≤ 70 then c.toNat - 65 + 10
  else 0

/-- Strip leading and trailing characters satisfying `p` (Python `str.strip`). -/
def pyStripList (p : Char → Bool) (l : List Char) : List Char :=
  ((l.dropWhile p).reverse.dropWhile p).reverse

/-- Parse the remaining digits after the first one; a single underscore may
separate two digits (CPython's numeric-literal grammar for `int(s, 16)`). -/
def hexTail : List Char → Nat → Option Nat
  | [], acc => some acc
  | [c], acc => if isHexDigit c then some (16 * acc + hexVal c) else none
  | c :: d :: rest, acc =>
    if c = '_' then
      if isHexDigit d then hexTail rest (16 * acc + hexVal d) else none
    else if isHexDigit c then hexTail (d :: rest) (16 * acc + hexVal c)
    else none

/-- Parse a nonempty run of hexadecimal digits with optional single
underscores between digits. -/
def hexDigits : List Char → Option Nat
  | [] => none
  | c :: rest => if isHexDigit c then hexTail rest (hexVal c) else none

/-- Digits of `int(s, 16)` after sign stripping: an optional `0x`/`0X` prefix
(possibly followed by one underscore) and then hexadecimal digits. -/
def pyIntHexCore (l : List Char) : Option Nat :=
  match l with
  | c0 :: c1 :: c2 :: rest =>
    if c0 = '0' && (c1 = 'x' || c1 = 'X') then
      if c2 = '_' then hexDigits rest else hexDigits (c2 :: rest)
    else hexDigits (c0 :: c1 :: c2 :: rest)
  | [c0, c1] =>
    if c0 = '0' && (c1 = 'x' || c1 = 'X') then none
    else hexDigits [c0, c1]
  | l => hexDigits l

/-- Sign handling of `int(s, 16)`, applied after whitespace stripping. -/
def pyIntHexSigned : List Char → Option Int
  | [] => none
  | c :: rest =>
    if c = '+' then (pyIntHexCore rest).map (fun n => (n : Int))
    else if c = '-' then (pyIntHexCore rest).map (fun n => -(n : Int))
    else (pyIntHexCore (c :: rest)).map (fun n => (n : Int))

/-- Python `int(s, 16)`: `some` value on success, `none` when `int` raises
`ValueError`. -/
def pyIntHex (s : String) : Option Int :=
  pyIntHexSigned (pyStripList isPySpace s.data)

/-! ## Difficulty verifier

`hash_meets_difficulty` from `py_miner.py` (identical in the other files):

```python
def hash_meets_difficulty(hash_hex: str, difficulty_hex: str) -> bool:
    if not hash_hex or len(hash_hex) < 8:
        return False
    try:
        left4 = int(hash_hex[0:8], 16)
        mask = int(difficulty_hex, 16)
    except Exception:
        return False
    return (left4 & (~mask & 0xFFFFFFFF)) == 0
```

Python `~` on arbitrary integers is `Int.lnot`, `&` is `Int.land` (two's
complement bitwise operations on unbounded integers).  `not hash_hex` (the
empty string) is subsumed by `len(hash_hex) < 8`.
-/

def hash_meets_difficulty (hash_hex difficulty_hex : String) : Bool :=
  if hash_hex.data.length < 8 then false
  else
    match pyIntHex (String.mk (hash_hex.data.take 8)), pyIntHex difficulty_hex with
    | some left4, some mask =>
      Int.land left4 (Int.land (Int.lnot mask) (Int.ofNat 0xFFFFFFFF)) == 0
    | _, _ => false

/-! ### Normal form for the bitmask test -/

theorem ldiff_mask_eq (a : Nat) :
    Nat.ldiff 4294967295 a = 4294967295 - a % 4294967296 := by
  have hB : (4294967295 : Nat) = 2 ^ 32 - 1 := by norm_num
  have hM : (4294967296 : Nat) = 2 ^ 32 := by norm_num
  apply Nat.eq_of_testBit_eq
  intro i
  have hlt : a % 4294967296 < 2 ^ 32 := by omega
  have hsub : 4294967295 - a % 4294967296 = 2 ^ 32 - (a % 4294967296 + 1) := by
    omega
  rw [Nat.testBit_ldiff, hsub, Nat.testBit_two_pow_sub_succ hlt, hB,
    Nat.testBit_two_pow_sub_one, hM, Nat.testBit_mod_two_pow]
  cases h : decide (i < 32) <;> simp [h]

theorem land_mask_eq (a : Nat) :
    Nat.land a 4294967295 = a % 4294967296 := by
  have hB : (4294967295 : Nat) = 2 ^ 32 - 1 := by norm_num
  have hM : (4294967296 : Nat) = 2 ^ 32 := by norm_num
  apply Nat.eq_of_testBit_eq
  intro i
  show (a &&& 4294967295).testBit i = _
  rw [Nat.testBit_and, hB, Nat.testBit_two_pow_sub_one, hM,
    Nat.testBit_mod_two_pow]
  cases h : decide (i < 32) <;> simp [h]

theorem negSucc_emod_32 (a : Nat) :
    Int.negSucc a % 4294967296 = 4294967295 - (a : Int) % 4294967296 := by
  rw [Int.negSucc_eq]
  omega

/-- `~m & 0xFFFFFFFF` in Python equals `0xFFFFFFFF - (m mod 2^32)`. -/
theorem lnot_land_mask (m : Int) :
    Int.land (Int.lnot m) (Int.ofNat 4294967295) =
      (4294967295 : Int) - m % 4294967296 := by
  cases m with
  | ofNat a =>
    show Int.ofNat (Nat.ldiff 4294967295 a) = _
    simp only [Int.ofNat_eq_coe]
    rw [ldiff_mask_eq]
    omega
  | negSucc a =>
    show Int.ofNat (Nat.land a 4294967295) = _
    simp only [Int.ofNat_eq_coe]
    rw [land_mask_eq, negSucc_emod_32]
    omega

theorem land_mod_left (b k : Nat) (hk : k < 4294967296) :
    Nat.land b k = Nat.land (b % 4294967296) k := by
  have hM : (4294967296 : Nat) = 2 ^ 32 := by norm_num
  apply Nat.eq_of_testBit_eq
  intro i
  show (b &&& k).testBit i = ((b % 4294967296) &&& k).testBit i
  rw [Nat.testBit_and, Nat.testBit_and, hM, Nat.testBit_mod_two_pow]
  rcases Nat.lt_or_ge i 32 with h | h
  · simp [h]
  · have : k.testBit i = false := by
      apply Nat.testBit_lt_two_pow
      calc k < 2 ^ 32 := by omega
        _ ≤ 2 ^ i := Nat.pow_le_pow_right (by omega) h
    simp [this]

theorem ldiff_eq_land_compl (b k : Nat) (hk : k < 4294967296) :
    Nat.ldiff k b = Nat.land (4294967295 - b % 4294967296) k := by
  have hM : (4294967296 : Nat) = 2 ^ 32 := by norm_num
  apply Nat.eq_of_testBit_eq
  intro i
  have hlt : b % 4294967296 < 2 ^ 32 := by omega
  have hsub : 4294967295 - b % 4294967296 = 2 ^ 32 - (b % 4294967296 + 1) := by
    omega
  show _ = ((4294967295 - b % 4294967296) &&& k).testBit i
  rw [Nat.testBit_ldiff, hsub, Nat.testBit_and,
    Nat.testBit_two_pow_sub_succ hlt]
  rcases Nat.lt_or_ge i 32 with h | h
  · have hmod : (b % 4294967296).testBit i = b.testBit i := by
      have := Nat.testBit_mod_two_pow b 32 i
      simp only [hM]
      rw [this]
      simp [h]
    rw [hmod]
    simp [h, Bool.and_comm]
  · have : k.testBit i = false := by
      apply Nat.testBit_lt_two_pow
      calc k < 2 ^ 32 := by omega
        _ ≤ 2 ^ i := Nat.pow_le_pow_right (by omega) h
    simp [this]

/-- Bitwise `and` with a value below `2^32` only sees the low 32 bits of the
left operand. -/
theorem land_small (l : Int) (k : Nat) (hk : k < 4294967296) :
    Int.land l (Int.ofNat k) =
      Int.ofNat (Nat.land (l % 4294967296).toNat k) := by
  cases l with
  | ofNat b =>
    show Int.ofNat (Nat.land b k) = _
    have h1 : (((b : Int)) % 4294967296).toNat = b % 4294967296 := by omega
    simp only [Int.ofNat_eq_coe]
    rw [h1, land_mod_left b k hk]
  | negSucc b =>
    show Int.ofNat (Nat.ldiff k b) = _
    have h1 : ((Int.negSucc b) % 4294967296).toNat
        = 4294967295 - b % 4294967296 := by
      rw [Int.negSucc_eq]
      omega
    simp only [Int.ofNat_eq_coe]
    rw [h1, ldiff_eq_land_compl b k hk]

/-- The full Python expression `left4 & (~mask & 0xFFFFFFFF)` as a masked
natural-number `and` of the two values' low 32 bits. -/
theorem masked_and_eq (l m : Int) :
    Int.land l (Int.land (Int.lnot m) (Int.ofNat 4294967295)) =
      Int.ofNat (Nat.land (l % 4294967296).toNat
        (4294967295 - (m % 4294967296).toNat)) := by
  have h0 : (0 : Int) ≤ m % 4294967296 := Int.emod_nonneg m (by norm_num)
  have h1 : m % 4294967296 < 4294967296 := Int.emod_lt_of_pos m (by norm_num)
  have h2 : Int.land (Int.lnot m) (Int.ofNat 4294967295)
      = Int.ofNat (4294967295 - (m % 4294967296).toNat) := by
    rw [lnot_land_mask, Int.ofNat_eq_coe]
    omega
  rw [h2, land_small]
  omega

/-! ### Parsing a plain hexadecimal string -/

/-- Value of a plain string of hexadecimal digits (no sign, prefix,
underscores or whitespace). -/
def hexNat (l : List Char) : Nat :=
  l.foldl (fun a c => 16 * a + hexVal c) 0

theorem isHexDigit_not_special {c : Char} (h : isHexDigit c = true) :
    c ≠ '_' ∧ c ≠ '+' ∧ c ≠ '-' ∧ c ≠ 'x' ∧ c ≠ 'X' ∧ isPySpace c = false := by
  simp only [isHexDigit, Bool.or_eq_true, Bool.and_eq_true,
    decide_eq_true_eq] at h
  have hv : c.toNat ≠ 95 ∧ c.toNat ≠ 43 ∧ c.toNat ≠ 45 ∧ c.toNat ≠ 120 ∧
      c.toNat ≠ 88 ∧ c.toNat ≠ 32 ∧ c.toNat ≠ 9 ∧ c.toNat ≠ 10 ∧
      c.toNat ≠ 13 ∧ c.toNat ≠ 11 ∧ c.toNat ≠ 12 := by omega
  refine ⟨?_, ?_, ?_, ?_, ?_, ?_⟩
  · exact fun he => hv.1 (by rw [he]; rfl)
  · exact fun he => hv.2.1 (by rw [he]; rfl)
  · exact fun he => hv.2.2.1 (by rw [he]; rfl)
  · exact fun he => hv.2.2.2.1 (by rw [he]; rfl)
  · exact fun he => hv.2.2.2.2.1 (by rw [he]; rfl)
  · simp only [isPySpace, Bool.or_eq_false_iff, decide_eq_false_iff_not]
    exact ⟨⟨⟨⟨⟨hv.2.2.2.2.2.1, hv.2.2.2.2.2.2.1⟩, hv.2.2.2.2.2.2.2.1⟩,
      hv.2.2.2.2.2.2.2.2.1⟩, hv.2.2.2.2.2.2.2.2.2.1⟩,
      hv.2.2.2.2.2.2.2.2.2.2⟩

theorem hexTail_all_hex :
    ∀ (l : List Char) (acc : Nat), (∀ c ∈ l, isHexDigit c = true) →
      hexTail l acc = some (l.foldl (fun a c => 16 * a + hexVal c) acc)
  | [], _, _ => rfl
  | [c], acc, h => by
    have hc := h c (List.mem_cons_self c [])
    rw [hexTail, if_pos hc, List.foldl_cons, List.foldl_nil]
  | c :: d :: rest, acc, h => by
    have hc := h c (List.mem_cons_self c (d :: rest))
    have hne := (isHexDigit_not_special hc).1
    rw [hexTail, if_neg hne, if_pos hc, List.foldl_cons]
    exact hexTail_all_hex (d :: rest) _
      (fun e he => h e (List.mem_cons_of_mem c he))

theorem hexDigits_all_hex (l : List Char) (hne : l ≠ [])
    (h : ∀ c ∈ l, isHexDigit c = true) :
    hexDigits l = some (hexNat l) := by
  cases l with
  | nil => exact absurd rfl hne
  | cons c rest =>
    have hc := h c (List.mem_cons_self c rest)
    rw [hexDigits, if_pos hc,
      hexTail_all_hex rest _ (fun d hd => h d (List.mem_cons_of_mem c hd))]
    have hinit : 16 * 0 + hexVal c = hexVal c := by omega
    rw [hexNat, List.foldl_cons, hinit]

theorem pyIntHexCore_all_hex (l : List Char) (hne : l ≠ [])
    (h : ∀ c ∈ l, isHexDigit c = true) :
    pyIntHexCore l = some (hexNat l) := by
  rw [← hexDigits_all_hex l hne h]
  cases l with
  | nil => exact absurd rfl hne
  | cons c0 t0 =>
    cases t0 with
    | nil => rfl
    | cons c1 t1 =>
      have h1 := isHexDigit_not_special (h c1 (by simp))
      cases t1 with
      | nil =>
        rw [pyIntHexCore, if_neg]
        simp only [Bool.and_eq_true, Bool.or_eq_true, decide_eq_true_eq]
        rintro ⟨-, hx | hx⟩
        · exact h1.2.2.2.1 hx
        · exact h1.2.2.2.2.1 hx
      | cons c2 rest =>
        rw [pyIntHexCore, if_neg]
        simp only [Bool.and_eq_true, Bool.or_eq_true, decide_eq_true_eq]
        rintro ⟨-, hx | hx⟩
        · exact h1.2.2.2.1 hx
        · exact h1.2.2.2.2.1 hx

theorem dropWhile_eq_self_of_none {p : Char → Bool} {l : List Char}
    (h : ∀ c ∈ l, p c = false) : l.dropWhile p = l := by
  cases l with
  | nil => rfl
  | cons c rest =>
    rw [List.dropWhile_cons, if_neg]
    simp [h c (List.mem_cons_self c rest)]

theorem pyStripList_all_hex (l : List Char)
    (h : ∀ c ∈ l, isHexDigit c = true) : pyStripList isPySpace l = l := by
  unfold pyStripList
  rw [dropWhile_eq_self_of_none
    (fun c hc => (isHexDigit_not_special (h c hc)).2.2.2.2.2)]
  rw [dropWhile_eq_self_of_none
    (fun c hc => (isHexDigit_not_special (h c (List.mem_reverse.mp hc))).2.2.2.2.2)]
  exact List.reverse_reverse l

/-- On a nonempty string of plain hexadecimal digits, `int(s, 16)` returns the
usual base-16 value. -/
theorem pyIntHex_all_hex (s : String) (hne : s.data ≠ [])
    (h : ∀ c ∈ s.data, isHexDigit c = true) :
    pyIntHex s = some ((hexNat s.data : Nat) : Int) := by
  rw [pyIntHex, pyStripList_all_hex s.data h]
  cases hs : s.data with
  | nil => exact absurd hs hne
  | cons c rest =>
    have hc := h c (hs ▸ List.mem_cons_self c rest)
    have hsp := isHexDigit_not_special hc
    rw [pyIntHexSigned, if_neg hsp.2.1, if_neg hsp.2.2.1,
      pyIntHexCore_all_hex (c :: rest) (by simp) (fun d hd => h d (hs ▸ hd))]
    rfl

/-! ### Evaluation lemmas for `hash_meets_difficulty` -/

theorem hash_meets_difficulty_eq_formula (h d : String) (l m : Int)
    (hlen : 8 ≤ h.data.length)
    (hl : pyIntHex (String.mk (h.data.take 8)) = some l)
    (hm : pyIntHex d = some m) :
    hash_meets_difficulty h d =
      (Int.land l (Int.land (Int.lnot m) (Int.ofNat 4294967295)) == 0) := by
  unfold hash_meets_difficulty
  rw [if_neg (by omega), hl, hm]

theorem hash_meets_difficulty_eval (h d : String) (l m : Int)
    (hlen : 8 ≤ h.data.length)
    (hl : pyIntHex (String.mk (h.data.take 8)) = some l)
    (hm : pyIntHex d = some m) :
    hash_meets_difficulty h d =
      (Nat.land (l % 4294967296).toNat
        (4294967295 - (m % 4294967296).toNat) == 0) := by
  rw [hash_meets_difficulty_eq_formula h d l m hlen hl hm, masked_and_eq]
  generalize Nat.land (l % 4294967296).toNat
    (4294967295 - (m % 4294967296).toNat) = k
  cases k <;> rfl

/-- C1: for a hash of at least 8 hexadecimal characters and a parseable
difficulty, the verifier decides exactly
`(int(hash[0:8],16) & (~int(difficulty,16) & 0xFFFFFFFF)) == 0`; for mask
`"ffff0000"` the low 16 bits of the hash prefix must be zero, so prefix
`"abcd0000"` is accepted while `"0000abcd"` and `"0001abcd"` are both
rejected. -/
theorem hash_meets_difficulty_formula_and_examples :
    (∀ (h d : String) (m : Int), 8 ≤ h.data.length →
        (∀ c ∈ h.data, isHexDigit c = true) → pyIntHex d = some m →
        (hash_meets_difficulty h d = true ↔
          Int.land ((hexNat (h.data.take 8) : Nat) : Int)
            (Int.land (Int.lnot m) (Int.ofNat 4294967295)) = 0)) ∧
    hash_meets_difficulty "abcd0000" "ffff0000" = true ∧
    hash_meets_difficulty "0000abcd" "ffff0000" = false ∧
    hash_meets_difficulty "0001abcd" "ffff0000" = false := by
  refine ⟨?_, ?_, ?_, ?_⟩
  · intro h d m hlen hhex hm
    have hpne : h.data.take 8 ≠ [] := by
      have h8 : (h.data.take 8).length = 8 := by
        rw [List.length_take]
        omega
      intro he
      rw [he] at h8
      simp at h8
    have hphex : ∀ c ∈ h.data.take 8, isHexDigit c = true :=
      fun c hc => hhex c ((List.take_sublist 8 h.data).subset hc)
    have hp : pyIntHex (String.mk (h.data.take 8))
        = some ((hexNat (h.data.take 8) : Nat) : Int) :=
      pyIntHex_all_hex (String.mk (h.data.take 8)) hpne hphex
    rw [hash_meets_difficulty_eq_formula h d _ m hlen hp hm]
    exact beq_iff_eq
  · rw [hash_meets_difficulty_eval "abcd0000" "ffff0000" 2882338816 4294901760
      (by decide) (by decide) (by decide)]
    decide
  · rw [hash_meets_difficulty_eval "0000abcd" "ffff0000" 43981 4294901760
      (by decide) (by decide) (by decide)]
    decide
  · rw [hash_meets_difficulty_eval "0001abcd" "ffff0000" 109517 4294901760
      (by decide) (by decide) (by decide)]
    decide

/-- C1 witness: the formula at a concrete input. -/
theorem hash_meets_difficulty_formula_witness :
    hash_meets_difficulty "00000000" "ff" = true ↔
      Int.land ((hexNat ("00000000".data.take 8) : Nat) : Int)
        (Int.land (Int.lnot 255) (Int.ofNat 4294967295)) = 0 :=
  hash_meets_difficulty_formula_and_examples.1 "00000000" "ff" 255
    (by decide) (by decide) (by decide)

/-- C1 counterexample: contrary to the claim, for mask `"ffff0000"` a hash
with prefix `"0000abcd"` is rejected, not accepted. -/
theorem hash_meets_difficulty_example_false :
    hash_meets_difficulty "0000abcd" "ffff0000" = false := by
  rw [hash_meets_difficulty_eval "0000abcd" "ffff0000" 43981 4294901760
    (by decide) (by decide) (by decide)]
  decide

/-- C7: on malformed input (hash shorter than 8 characters, or unparseable
hash prefix or difficulty) the verifier returns `false`. -/
theorem hash_meets_difficulty_malformed (h d : String)
    (hbad : h.data.length < 8 ∨
      pyIntHex (String.mk (h.data.take 8)) = none ∨ pyIntHex d = none) :
    hash_meets_difficulty h d = false := by
  unfold hash_meets_difficulty
  rcases hbad with hb | hb | hb
  · rw [if_pos hb]
  · by_cases hlen : h.data.length < 8
    · rw [if_pos hlen]
    · rw [if_neg hlen, hb]
  · by_cases hlen : h.data.length < 8
    · rw [if_pos hlen]
    · rw [if_neg hlen, hb]
      cases pyIntHex (String.mk (h.data.take 8)) <;> rfl

/-- C7 witness: a 7-character hash is rejected without an exception. -/
theorem hash_meets_difficulty_malformed_witness :
    hash_meets_difficulty "1234567" "ff" = false :=
  hash_meets_difficulty_malformed "1234567" "ff" (Or.inl (by decide))

/-- C10: the verifier depends only on the first 8 characters of the hash and
on the difficulty value modulo `2^32`; difficulties longer than 8 hex digits
are accepted; a difficulty whose low 32 bits are all ones accepts every hash
with a parseable 8-character prefix. -/
theorem hash_meets_difficulty_low_bits :
    (∀ (h d₁ d₂ : String) (m₁ m₂ : Int), pyIntHex d₁ = some m₁ →
        pyIntHex d₂ = some m₂ → m₁ % 4294967296 = m₂ % 4294967296 →
        hash_meets_difficulty h d₁ = hash_meets_difficulty h d₂) ∧
    (∀ (h₁ h₂ d : String), h₁.data.take 8 = h₂.data.take 8 →
        8 ≤ h₁.data.length → 8 ≤ h₂.data.length →
        hash_meets_difficulty h₁ d = hash_meets_difficulty h₂ d) ∧
    hash_meets_difficulty "00000000" "fffffffff" = true ∧
    (∀ (h d : String) (m l : Int), pyIntHex d = some m →
        m % 4294967296 = 4294967295 → 8 ≤ h.data.length →
        pyIntHex (String.mk (h.data.take 8)) = some l →
        hash_meets_difficulty h d = true) := by
  refine ⟨?_, ?_, ?_, ?_⟩
  · intro h d₁ d₂ m₁ m₂ h1 h2 hmod
    by_cases hlen : h.data.length < 8
    · unfold hash_meets_difficulty
      rw [if_pos hlen, if_pos hlen]
    · cases hp : pyIntHex (String.mk (h.data.take 8)) with
      | none =>
        unfold hash_meets_difficulty
        rw [if_neg hlen, if_neg hlen, hp]
      | some l =>
        rw [hash_meets_difficulty_eval h d₁ l m₁ (by omega) hp h1,
          hash_meets_difficulty_eval h d₂ l m₂ (by omega) hp h2, hmod]
  · intro h₁ h₂ d hpre hl1 hl2
    unfold hash_meets_difficulty
    rw [if_neg (by omega), if_neg (by omega), hpre]
  · rw [hash_meets_difficulty_eval "00000000" "fffffffff" 0 68719476735
      (by decide) (by decide) (by decide)]
    decide
  · intro h d m l hm hmod hlen hp
    rw [hash_meets_difficulty_eval h d l m hlen hp hm, hmod]
    have h0 : (4294967295 - ((4294967295 : Int)).toNat) = 0 := by norm_num
    rw [h0]
    show ((l % 4294967296).toNat &&& 0 == 0) = true
    rw [Nat.and_zero]
    rfl

/-- C10 witness: an all-ones difficulty accepts a concrete hash. -/
theorem hash_meets_difficulty_low_bits_witness :
    hash_meets_difficulty "12345678" "ffffffff" = true :=
  hash_meets_difficulty_low_bits.2.2.2 "12345678" "ffffffff" 4294967295
    305419896 (by decide) (by decide) (by decide) (by decide)

/-! ## Preimage builder

`build_preimage` (identical in all files) joins the fields with no
delimiters; `Worker.run` (`py_miner.py` lines 211-217) then prefixes the
preimage with the challenge's `no_pre_mine` and a `|` before sending it to
the daemon.  The challenge dictionary's required fields are modelled as a
structure; `no_pre_mine_hour` is optional (`challenge.get(...)` with default
`""`, wrapped in `str`). -/

structure Challenge where
  challenge_id : String
  difficulty : String
  no_pre_mine : String
  latest_submission : String
  no_pre_mine_hour : Option String

def build_preimage (nonce_hex address : String) (c : Challenge) : String :=
  String.join [nonce_hex, address, c.challenge_id, c.difficulty,
    c.no_pre_mine, c.latest_submission, c.no_pre_mine_hour.getD ""]

/-- The string sent to the oracle: `f"{rom}|{pre}"` with
`rom = challenge.get("no_pre_mine", "")`. -/
def worker_oracle_message (nonce_hex address : String) (c : Challenge) : String :=
  c.no_pre_mine ++ "|" ++ build_preimage nonce_hex address c

/-- C2: the preimage is exactly the delimiter-free concatenation
nonce · identity · challenge_id · difficulty · no_pre_mine ·
latest_submission · no_pre_mine_hour (empty when absent), and the string the
worker sends to the oracle is exactly `no_pre_mine + "|" +` that preimage. -/
theorem build_preimage_exact (n a : String) (c : Challenge) :
    build_preimage n a c =
      n ++ a ++ c.challenge_id ++ c.difficulty ++ c.no_pre_mine ++
        c.latest_submission ++ c.no_pre_mine_hour.getD "" ∧
    worker_oracle_message n a c =
      c.no_pre_mine ++ "|" ++ build_preimage n a c :=
  ⟨rfl, rfl⟩

/-! ## Nonce-range partitioning

`Orchestrator.start_workers` in `fullauto&workerrandom.py` (lines 339-384):

```python
TOTAL_NONCE_SPACE = 2**64
chunk_size = TOTAL_NONCE_SPACE // self.workers_count
for i in range(self.workers_count):
    start_nonce = i * chunk_size
    if i == self.workers_count - 1:
        end_nonce = TOTAL_NONCE_SPACE
    else:
        end_nonce = (i + 1) * chunk_size
    random_offset = random.randint(0, chunk_size // 100)  # inclusive bounds
    start_nonce += random_offset
```
-/

def TOTAL_NONCE_SPACE : Nat := 2 ^ 64

def chunk_size (workers : Nat) : Nat := TOTAL_NONCE_SPACE / workers

/-- Start of worker `i`'s chunk before the random offset is added. -/
def worker_start_base (workers i : Nat) : Nat := i * chunk_size workers

/-- Upper bound of worker `i`'s range. -/
def worker_end (workers i : Nat) : Nat :=
  if i = workers - 1 then TOTAL_NONCE_SPACE else (i + 1) * chunk_size workers

/-- Start actually assigned to worker `i`, given the drawn random offset. -/
def worker_start (workers i off : Nat) : Nat := worker_start_base workers i + off

/-- C5 counterexample: with one worker, the legal offset draw
`chunk_size // 100` makes nonce `0` fall in no worker's assigned range
`[start_i, end_i)`, so the assigned ranges do not cover `[0, 2^64)`. -/
theorem start_workers_gap_example :
    TOTAL_NONCE_SPACE / 100 ≤ chunk_size 1 / 100 ∧
    ¬ ∃ i < 1, worker_start 1 i (TOTAL_NONCE_SPACE / 100) ≤ 0 ∧
        0 < worker_end 1 i := by
  constructor
  · have h1 : chunk_size 1 = TOTAL_NONCE_SPACE := Nat.div_one _
    rw [h1]
  · rintro ⟨i, hi, hle, -⟩
    have hi0 : i = 0 := by omega
    subst hi0
    rw [worker_start, worker_start_base, Nat.zero_mul, Nat.zero_add] at hle
    have : 0 < TOTAL_NONCE_SPACE / 100 := by
      rw [TOTAL_NONCE_SPACE]
      norm_num
    omega

/-- C5 amended: the pre-offset chunks `[i*chunk, end_i)` cover `[0, 2^64)`
with no gaps (so the assigned ranges do too whenever every drawn offset is
zero), the last worker's upper bound is exactly `2^64`, every range stays
inside the space, and each assigned start exceeds its chunk base by exactly
the drawn offset, which `randint(0, chunk_size // 100)` bounds by
`chunk_size // 100`. -/
theorem start_workers_partition (n : Nat) (hn : 1 ≤ n) :
    worker_end n (n - 1) = TOTAL_NONCE_SPACE ∧
    (∀ x < TOTAL_NONCE_SPACE, ∃ i < n,
        worker_start n i 0 ≤ x ∧ x < worker_end n i) ∧
    (∀ i < n, worker_end n i ≤ TOTAL_NONCE_SPACE) ∧
    (∀ i off, off ≤ chunk_size n / 100 →
        worker_start n i off = worker_start_base n i + off) := by
  have hchunk_le : n * chunk_size n ≤ TOTAL_NONCE_SPACE := by
    rw [Nat.mul_comm]
    exact Nat.div_mul_le_self TOTAL_NONCE_SPACE n
  refine ⟨?_, ?_, ?_, ?_⟩
  · rw [worker_end, if_pos rfl]
  · intro x hx
    simp only [worker_start, worker_start_base, worker_end, Nat.add_zero]
    by_cases hc : chunk_size n = 0
    · refine ⟨n - 1, by omega, ?_, ?_⟩
      · rw [hc, Nat.mul_zero]
        exact Nat.zero_le x
      · rw [if_pos rfl]
        exact hx
    · generalize hcdef : chunk_size n = c at hc ⊢
      have hcpos : 0 < c := by omega
      have hdm : x / c * c + x % c = x := by
        rw [Nat.mul_comm]
        exact Nat.div_add_mod x c
      have hml : x % c < c := Nat.mod_lt x hcpos
      by_cases hj : x / c < n - 1
      · refine ⟨x / c, by omega, ?_, ?_⟩
        · omega
        · rw [if_neg (by omega), Nat.add_mul, Nat.one_mul]
          omega
      · refine ⟨n - 1, by omega, ?_, ?_⟩
        · have h1 : (n - 1) * c ≤ x / c * c :=
            Nat.mul_le_mul_right c (by omega)
          omega
        · rw [if_pos rfl]
          exact hx
  · intro i hi
    rw [worker_end]
    by_cases hlast : i = n - 1
    · rw [if_pos hlast]
    · rw [if_neg hlast]
      calc (i + 1) * chunk_size n ≤ n * chunk_size n :=
            Nat.mul_le_mul_right _ (by omega)
        _ ≤ TOTAL_NONCE_SPACE := hchunk_le
  · intro i off _
    rfl

/-- C5 witness: the amended partition facts at `n = 3`. -/
theorem start_workers_partition_witness :
    worker_end 3 2 = TOTAL_NONCE_SPACE ∧
    (∀ x < TOTAL_NONCE_SPACE, ∃ i < 3,
        worker_start 3 i 0 ≤ x ∧ x < worker_end 3 i) ∧
    (∀ i < 3, worker_end 3 i ≤ TOTAL_NONCE_SPACE) ∧
    (∀ i off, off ≤ chunk_size 3 / 100 →
        worker_start 3 i off = worker_start_base 3 i + off) :=
  start_workers_partition 3 (by decide)

/-! ## Challenge installation

`Orchestrator.refresh_challenge` (`py_miner.py` lines 258-296) and the
check inside `Orchestrator.run` (lines 316-334).  The parsed JSON response
is modelled by its HTTP status, its `code` field and its `challenge` field
(a dictionary modelled as an association list of string fields;
`resp.get("challenge", {})` supplies the empty dictionary when absent).
`refresh_challenge` checks only `k in ch` — key presence, not value
non-emptiness. -/

structure ChallengeResponse where
  status : Option Nat
  code : Option String
  challenge : List (String × String)

def hasKey (d : List (String × String)) (k : String) : Bool :=
  (d.lookup k).isSome

def required_fields_refresh : List String :=
  ["challenge_id", "difficulty", "no_pre_mine", "latest_submission",
    "no_pre_mine_hour"]

def required_fields_run : List String :=
  ["challenge_id", "difficulty", "no_pre_mine", "latest_submission"]

/-- `Orchestrator.refresh_challenge`: returns the new value of
`self.current_challenge` and the method's boolean result. -/
def refresh_challenge (prev : Option (List (String × String)))
    (r : ChallengeResponse) : Option (List (String × String)) × Bool :=
  if r.status ≠ some 200 then (prev, false)
  else if r.code = some "before" ∨ r.code = some "after" then (none, false)
  else if r.code ≠ some "active" then (none, false)
  else if ¬ (required_fields_refresh.all (hasKey r.challenge) = true) then
    (prev, false)
  else (some r.challenge, true)

/-- The challenge check at the start of `Orchestrator.run`: the challenge is
installed (replacing the previous state) only when the status is 200, the
code is `"active"` and the four required fields are present. -/
def run_install (prev : Option (List (String × String)))
    (r : ChallengeResponse) : Option (List (String × String)) :=
  if r.status = some 200 ∧ r.code = some "active" ∧
      required_fields_run.all (hasKey r.challenge) = true then
    some r.challenge
  else prev

/-- C6 counterexample: a challenge whose five fields are all present but
whose `difficulty` is the empty string is installed by `refresh_challenge`,
contradicting the claimed non-emptiness requirement. -/
theorem refresh_challenge_installs_empty_field :
    refresh_challenge none
      { status := some 200, code := some "active",
        challenge := [("challenge_id", "c1"), ("difficulty", ""),
          ("no_pre_mine", "seed"), ("latest_submission", "t"),
          ("no_pre_mine_hour", "h")] } =
      (some [("challenge_id", "c1"), ("difficulty", ""),
        ("no_pre_mine", "seed"), ("latest_submission", "t"),
        ("no_pre_mine_hour", "h")], true) ∧
    List.lookup "difficulty"
      [("challenge_id", "c1"), ("difficulty", ""), ("no_pre_mine", "seed"),
        ("latest_submission", "t"), ("no_pre_mine_hour", "h")] = some "" := by
  constructor
  · rfl
  · rfl

/-- C6 amended: `refresh_challenge` installs a challenge exactly when the
status is 200, the code is `"active"` and all five fields are *present*
(emptiness is not checked); the `run` path requires only four fields
(`no_pre_mine_hour` is not required there); a response missing
`latest_submission` is never installed by either path; and when the field
check fails the state keeps its previous value instead of being cleared. -/
theorem challenge_install_requires_fields
    (prev : Option (List (String × String))) (r : ChallengeResponse) :
    ((refresh_challenge prev r).2 = true →
      required_fields_refresh.all (hasKey r.challenge) = true ∧
      (refresh_challenge prev r).1 = some r.challenge) ∧
    (run_install prev r ≠ prev →
      required_fields_run.all (hasKey r.challenge) = true ∧
      run_install prev r = some r.challenge) ∧
    (hasKey r.challenge "latest_submission" = false →
      (refresh_challenge prev r).1 = prev ∨
        (refresh_challenge prev r).1 = none) ∧
    (hasKey r.challenge "latest_submission" = false →
      run_install prev r = prev) ∧
    (r.status = some 200 → r.code = some "active" →
      required_fields_refresh.all (hasKey r.challenge) = false →
      refresh_challenge prev r = (prev, false)) := by
  have hmem_refresh : "latest_submission" ∈ required_fields_refresh := by
    simp [required_fields_refresh]
  have hmem_run : "latest_submission" ∈ required_fields_run := by
    simp [required_fields_run]
  refine ⟨?_, ?_, ?_, ?_, ?_⟩
  · intro h
    unfold refresh_challenge at h ⊢
    split at h
    · exact absurd h (by simp)
    · split at h
      · exact absurd h (by simp)
      · split at h
        · exact absurd h (by simp)
        · split at h
          · exact absurd h (by simp)
          · rename_i h1 h2 h3 h4
            refine ⟨by simpa using h4, ?_⟩
            rw [if_neg h1, if_neg h2, if_neg h3, if_neg h4]
  · intro h
    unfold run_install at h ⊢
    split at h
    · rename_i hcond
      rw [if_pos hcond]
      exact ⟨hcond.2.2, rfl⟩
    · exact absurd rfl h
  · intro h
    unfold refresh_challenge
    split
    · exact Or.inl rfl
    · split
      · exact Or.inr rfl
      · split
        · exact Or.inr rfl
        · split
          · exact Or.inl rfl
          · rename_i h4
            exfalso
            apply h4
            intro hall
            have := List.all_eq_true.mp hall "latest_submission" hmem_refresh
            rw [h] at this
            exact Bool.false_ne_true this
  · intro h
    unfold run_install
    rw [if_neg]
    rintro ⟨-, -, hall⟩
    have := List.all_eq_true.mp hall "latest_submission" hmem_run
    rw [h] at this
    exact Bool.false_ne_true this
  · intro h200 hactive hfields
    unfold refresh_challenge
    rw [if_neg (by simp [h200]), if_neg (by simp [hactive]),
      if_neg (by simp [hactive]), if_pos (by simp [hfields])]

/-- C6 witness: a response missing `latest_submission` is not installed. -/
theorem challenge_install_requires_fields_witness :
    refresh_challenge none
      { status := some 200, code := some "active",
        challenge := [("challenge_id", "c1"), ("difficulty", "ff"),
          ("no_pre_mine", "seed"), ("no_pre_mine_hour", "h")] } =
      (none, false) := by
  have h := (challenge_install_requires_fields none
    { status := some 200, code := some "active",
      challenge := [("challenge_id", "c1"), ("difficulty", "ff"),
        ("no_pre_mine", "seed"), ("no_pre_mine_hour", "h")] }).2.2.2.2
    rfl rfl (by decide)
  exact h

/-! ## Submission phase

`Worker.run` in `chayvottungaddresstheolist.py` (lines 442-467):

```python
attempts = 0
sc = None
while attempts < 3:
    try:
        sc, resp = post_solution(...)
        if sc == 201:
            stop_event.set()
            break
        attempts += 1
        time.sleep(1)
    except Exception as e:
        attempts += 1
        time.sleep(1)
if sc != 201:
    stop_event.set()
```

`post_solution` (lines 119-130) returns `(None, {...})` on a network
exception (transient error) and `(status, body)` when an HTTP response was
received, so a call's outcome is modelled as `Option Nat` (`none` =
transient failure, `some sc` = response with status `sc`) and the loop's
`except` branch is unreachable.  `results i` is the outcome of the `i`-th
`post_solution` call.  The loop is driven by `remaining = 3 - attempts`. -/

structure SubmitResult where
  calls : Nat
  last_sc : Option Nat
  sleeps : Nat
  stop_set : Bool

/-- One step per loop iteration; the `Bool` records whether
`stop_event.set()` was executed inside the loop. -/
def submit_loop (results : Nat → Option Nat) :
    Nat → Nat → Option Nat → Nat → Nat × Option Nat × Nat × Bool
  | 0, calls, sc, sleeps => (calls, sc, sleeps, false)
  | remaining + 1, calls, _, sleeps =>
    let sc' := results calls
    if sc' = some 201 then (calls + 1, sc', sleeps, true)
    else submit_loop results remaining (calls + 1) sc' (sleeps + 1)

/-- The whole submission phase, including the trailing
`if sc != 201: stop_event.set()`. -/
def submit_phase (results : Nat → Option Nat) : SubmitResult :=
  match submit_loop results 3 0 none 0 with
  | (calls, sc, sleeps, stop_in_loop) =>
    { calls := calls, last_sc := sc, sleeps := sleeps,
      stop_set := stop_in_loop || decide (sc ≠ some 201) }

/-- `py_miner.py` `Worker.run` lines 225-235: the handler for a verified
find increments the solutions counter, optionally performs a single
`post_solution` call, prints, sleeps and breaks out of the batch.  No
statement in this handler touches `stop_event`. -/
structure PymFindResult where
  solutions : Nat
  posts : Nat
  stop_set : Bool

def pym_on_find (submit_on_find : Bool) (_post_status : Option Nat) :
    PymFindResult :=
  { solutions := 1,
    posts := if submit_on_find then 1 else 0,
    stop_set := false }

/-- C3 counterexample: in `py_miner.py` the submission phase concludes
(even with an accepted HTTP 201 result) without setting the Stop Signal. -/
theorem pym_find_never_stops :
    (pym_on_find true (some 201)).stop_set = false := rfl

theorem submit_loop_stop (results : Nat → Option Nat) :
    ∀ (remaining calls : Nat) (sc : Option Nat) (sleeps : Nat),
      sc ≠ some 201 →
      (submit_loop results remaining calls sc sleeps).2.2.2 = true ∨
        (submit_loop results remaining calls sc sleeps).2.1 ≠ some 201
  | 0, calls, sc, sleeps, h => Or.inr h
  | remaining + 1, calls, sc, sleeps, h => by
    rw [submit_loop]
    by_cases hsc : results calls = some 201
    · rw [if_pos hsc]
      exact Or.inl rfl
    · rw [if_neg hsc]
      exact submit_loop_stop results remaining (calls + 1) (results calls)
        (sleeps + 1) hsc

/-- C3 amended: in the CSV-driven miner (`chayvottungaddresstheolist.py`)
every conclusion of the submission phase ends with the Stop Signal set —
on HTTP 201 inside the loop, and by the trailing check after exhausting the
retries — and three transient errors yield no acceptance with the signal
still set; the `py_miner.py` worker's find handler, by contrast, never sets
the Stop Signal. -/
theorem submit_phase_sets_stop :
    (∀ results : Nat → Option Nat, (submit_phase results).stop_set = true) ∧
    ((submit_phase (fun _ => none)).last_sc ≠ some 201 ∧
      (submit_phase (fun _ => none)).stop_set = true) ∧
    (∀ (submit : Bool) (st : Option Nat),
      (pym_on_find submit st).stop_set = false) := by
  refine ⟨?_, ⟨by decide, by decide⟩, fun _ _ => rfl⟩
  intro results
  unfold submit_phase
  rcases submit_loop_stop results 3 0 none 0 (by simp) with h | h
  · rcases hr : submit_loop results 3 0 none 0 with ⟨calls, sc, sleeps, st⟩
    rw [hr] at h
    simp only at h
    simp [h]
  · rcases hr : submit_loop results 3 0 none 0 with ⟨calls, sc, sleeps, st⟩
    rw [hr] at h
    simp only at h
    simp [h]

/-- C4 counterexample: a definitive rejection (HTTP 400 on every call) is
retried — three calls are made — contradicting the claim that a
non-accepted HTTP response is never retried. -/
theorem submit_phase_retries_rejected :
    (submit_phase (fun _ => some 400)).calls = 3 ∧
    (submit_phase (fun _ => some 400)).calls ≠ 1 := by
  constructor
  · rfl
  · decide

/-- C4 amended: the submission loop makes at most 3 attempts with a
1-second delay after each unsuccessful attempt, and retries after *every*
outcome other than HTTP 201 — transient errors and definitive rejections
alike; only an accepted result (201) ends the loop early. -/
theorem submit_phase_retry_policy (results : Nat → Option Nat) :
    1 ≤ (submit_phase results).calls ∧
    (submit_phase results).calls ≤ 3 ∧
    ((submit_phase results).last_sc = some 201 →
      results ((submit_phase results).calls - 1) = some 201 ∧
      ∀ k < (submit_phase results).calls - 1, results k ≠ some 201) ∧
    ((submit_phase results).last_sc ≠ some 201 →
      (submit_phase results).calls = 3 ∧ ∀ k < 3, results k ≠ some 201) ∧
    (submit_phase results).sleeps =
      (if (submit_phase results).last_sc = some 201 then
        (submit_phase results).calls - 1
      else (submit_phase results).calls) := by
  by_cases h0 : results 0 = some 201
  · simp [submit_phase, submit_loop, h0]
  · by_cases h1 : results 1 = some 201
    · simp [submit_phase, submit_loop, h0, h1]
    · by_cases h2 : results 2 = some 201
      · simp [submit_phase, submit_loop, h0, h1, h2]
        intro k hk
        interval_cases k
        · exact h0
        · exact h1
      · simp [submit_phase, submit_loop, h0, h1, h2]
        intro k hk
        interval_cases k
        · exact h0
        · exact h1
        · exact h2

/-- C4 witness: the amended retry policy at a concrete outcome stream
(two transient errors, then acceptance: three calls, two sleeps). -/
theorem submit_phase_retry_policy_witness :
    1 ≤ (submit_phase (fun i => if i < 2 then none else some 201)).calls ∧
    (submit_phase (fun i => if i < 2 then none else some 201)).calls ≤ 3 ∧
    ((submit_phase (fun i => if i < 2 then none else some 201)).last_sc =
        some 201 →
      (fun i => if i < 2 then none else some 201)
        ((submit_phase (fun i => if i < 2 then none else some 201)).calls
          - 1) = some 201 ∧
      ∀ k < (submit_phase
          (fun i => if i < 2 then none else some 201)).calls - 1,
        (fun i => if i < 2 then none else some 201) k ≠ some 201) ∧
    ((submit_phase (fun i => if i < 2 then none else some 201)).last_sc ≠
        some 201 →
      (submit_phase (fun i => if i < 2 then none else some 201)).calls = 3 ∧
      ∀ k < 3, (fun i => if i < 2 then none else some 201) k ≠ some 201) ∧
    (submit_phase (fun i => if i < 2 then none else some 201)).sleeps =
      (if (submit_phase (fun i => if i < 2 then none else some 201)).last_sc
          = some 201 then
        (submit_phase (fun i => if i < 2 then none else some 201)).calls - 1
      else (submit_phase (fun i => if i < 2 then none else some 201)).calls) :=
  submit_phase_retry_policy (fun i => if i < 2 then none else some 201)

/-! ## Hash counting in the batch loop

`Worker.run` in `py_miner.py` (lines 204-235): each iteration of the batch
loop queries the daemon; a `None` reply is a transient failure — backoff and
`continue`, no counting; a reply line increments `tries` and
`stats.add_hashes(1)` exactly once, then the difficulty check may end the
batch.  `oracle i` is the reply to the `i`-th iteration's query; `rem` is
the remaining batch budget (`NONCE_BATCH` at the start). -/

structure BatchResult where
  queries : List (Option String)
  hashes : Nat
  tries : Nat
  found : Bool

def pym_batch_loop (oracle : Nat → Option String) (difficulty : String) :
    Nat → Nat → BatchResult
  | 0, _ => { queries := [], hashes := 0, tries := 0, found := false }
  | rem + 1, i =>
    match oracle i with
    | none =>
      let r := pym_batch_loop oracle difficulty rem (i + 1)
      { r with queries := none :: r.queries }
    | some hash_hex =>
      if hash_meets_difficulty hash_hex difficulty then
        { queries := [some hash_hex], hashes := 1, tries := 1, found := true }
      else
        let r := pym_batch_loop oracle difficulty rem (i + 1)
        { queries := some hash_hex :: r.queries, hashes := r.hashes + 1,
          tries := r.tries + 1, found := r.found }

/-- `Worker.call_daemon_with_range` in `fullauto&workerrandom.py`
(lines 250-286): while reading the daemon's response it executes
`stats.increment_hashes(1000)` once per nonempty TCP chunk received — a
fixed estimate, not a count of verified oracle round-trips.  (That file's
`Stats` class defines no `increment_hashes` method, only `add_hashes`, so
the call would in fact raise `AttributeError` at runtime.) -/
def fullauto_recv_loop : List (List Char) → Nat
  | [] => 0
  | c :: rest => if c = [] then 0 else 1000 + fullauto_recv_loop rest

/-- C8: in `py_miner.py`'s batch loop the hashes counter is incremented by
exactly 1 per query that returned a line and never for a `None` reply;
in the range-request variant a single received chunk that yields no usable
response still adds 1000 to the counter. -/
theorem batch_loop_hash_count :
    (∀ (o : Nat → Option String) (d : String) (rem i : Nat),
      (pym_batch_loop o d rem i).hashes =
        (pym_batch_loop o d rem i).queries.countP (fun q => q.isSome)) ∧
    fullauto_recv_loop [['x']] = 1000 := by
  refine ⟨?_, rfl⟩
  intro o d rem
  induction rem with
  | zero =>
    intro i
    simp [pym_batch_loop]
  | succ rem ih =>
    intro i
    rw [pym_batch_loop]
    cases h : o i with
    | none =>
      simp only []
      rw [List.countP_cons_of_neg]
      · exact ih (i + 1)
      · simp
    | some hh =>
      by_cases hm : hash_meets_difficulty hh d
      · simp [hm]
      · simp only [if_neg hm]
        rw [List.countP_cons_of_pos]
        · rw [ih (i + 1)]
        · simp

/-! ## Hash oracle client

`Worker._ensure_socket` and `Worker._send_pre_and_recv_hash` in
`py_miner.py` (lines 129-172).  Bytes are modelled as characters; a recv
script lists the successive results of `self.sock.recv(4096)`:
`chunk b` is returned data (the code raises `ConnectionError` when it is
empty), `ioError` is a socket exception (timeout, reset), and an exhausted
script stands for a read that never completes inside the timeout (which
raises `socket.timeout`). -/

inductive RecvEvent where
  | chunk (data : List Char)
  | ioError
  deriving Repr, DecidableEq

structure OracleNet where
  connect_ok : Bool
  events : List RecvEvent

/-- The `while True` read loop: extend the buffer until a received chunk
contains a newline; empty reads and exceptions abort. -/
def recvUntilNewline : List RecvEvent → List Char → Option (List Char)
  | [], _ => none
  | RecvEvent.ioError :: _, _ => none
  | RecvEvent.chunk b :: rest, buf =>
    if b = [] then none
    else if b.contains '\n' then some (buf ++ b)
    else recvUntilNewline rest (buf ++ b)

/-- Python `str.strip()` (whitespace on both ends). -/
def pyStrip (l : List Char) : List Char := pyStripList isPySpace l

structure QueryResult where
  sent : Option (List Char)
  response : Option (List Char)
  sockAfter : Bool

/-- `_send_pre_and_recv_hash`: ensure the socket (lazily connecting),
send `preimage + "\n"`, read until a newline, return the bytes before the
first newline decoded and trimmed; on any failure return `None` and reset
`self.sock` to `None`. -/
def send_pre_and_recv_hash (sockBefore : Bool) (net : OracleNet)
    (preimage : List Char) : QueryResult :=
  if ¬ (sockBefore || net.connect_ok) = true then
    { sent := none, response := none, sockAfter := false }
  else
    match recvUntilNewline net.events [] with
    | some buf =>
      { sent := some (preimage ++ ['\n']),
        response := some (pyStrip (buf.takeWhile (fun c => c != '\n'))),
        sockAfter := true }
    | none =>
      { sent := some (preimage ++ ['\n']), response := none,
        sockAfter := false }

theorem recvUntilNewline_decomp :
    ∀ (events : List RecvEvent) (acc buf : List Char),
      recvUntilNewline events acc = some buf →
      ∃ (datas : List (List Char)) (c : List Char) (rest : List RecvEvent),
        events = datas.map RecvEvent.chunk ++ RecvEvent.chunk c :: rest ∧
        (∀ d ∈ datas, d ≠ [] ∧ d.contains '\n' = false) ∧
        c ≠ [] ∧ c.contains '\n' = true ∧ buf = acc ++ datas.flatten ++ c
  | [], acc, buf => by intro h; exact absurd h (by simp [recvUntilNewline])
  | RecvEvent.ioError :: rest, acc, buf => by
    intro h
    exact absurd h (by simp [recvUntilNewline])
  | RecvEvent.chunk b :: rest, acc, buf => by
    intro h
    rw [recvUntilNewline] at h
    by_cases hb : b = []
    · rw [if_pos hb] at h
      exact absurd h (by simp)
    · rw [if_neg hb] at h
      by_cases hnl : b.contains '\n'
      · rw [if_pos hnl] at h
        refine ⟨[], b, rest, by simp, by simp, hb, hnl, ?_⟩
        simpa using h.symm
      · rw [if_neg hnl] at h
        obtain ⟨datas, c, rest', he, hd, hc, hcnl, hbuf⟩ :=
          recvUntilNewline_decomp rest (acc ++ b) buf h
        refine ⟨b :: datas, c, rest', ?_, ?_, hc, hcnl, ?_⟩
        · simp [he]
        · intro d hd'
          rcases List.mem_cons.mp hd' with hd' | hd'
          · subst hd'
            exact ⟨hb, by simpa using hnl⟩
          · exact hd d hd'
        · rw [hbuf]
          simp [List.append_assoc]

/-- C9: the oracle client sends `preimage + "\n"`; on success it returns
the received bytes before the first newline, decoded and trimmed, keeping
the connection (the buffer being the concatenation of the received chunks
up to the first one containing a newline); on any failure — an I/O error,
a zero-length read (peer closed), or a timeout — it returns `None` and
resets the socket so that the next call reconnects afresh. -/
theorem oracle_client_query :
    (∀ (sockBefore : Bool) (net : OracleNet) (pre : List Char),
      (sockBefore || net.connect_ok) = true →
      (send_pre_and_recv_hash sockBefore net pre).sent =
        some (pre ++ ['\n'])) ∧
    (∀ (sockBefore : Bool) (net : OracleNet) (pre buf : List Char),
      (sockBefore || net.connect_ok) = true →
      recvUntilNewline net.events [] = some buf →
      (send_pre_and_recv_hash sockBefore net pre).response =
          some (pyStrip (buf.takeWhile (fun c => c != '\n'))) ∧
        (send_pre_and_recv_hash sockBefore net pre).sockAfter = true ∧
        ∃ (datas : List (List Char)) (c : List Char) (rest : List RecvEvent),
          net.events = datas.map RecvEvent.chunk ++ RecvEvent.chunk c :: rest ∧
          (∀ d ∈ datas, d ≠ [] ∧ d.contains '\n' = false) ∧
          c.contains '\n' = true ∧ buf = datas.flatten ++ c) ∧
    (∀ (sockBefore : Bool) (net : OracleNet) (pre : List Char),
      (sockBefore || net.connect_ok) = true →
      recvUntilNewline net.events [] = none →
      (send_pre_and_recv_hash sockBefore net pre).response = none ∧
        (send_pre_and_recv_hash sockBefore net pre).sockAfter = false) ∧
    (∀ (net : OracleNet) (pre : List Char) (rest : List RecvEvent),
      net.events = RecvEvent.chunk [] :: rest → net.connect_ok = true →
      (send_pre_and_recv_hash false net pre).response = none ∧
        (send_pre_and_recv_hash false net pre).sockAfter = false) := by
  refine ⟨?_, ?_, ?_, ?_⟩
  · intro sockBefore net pre hens
    rw [send_pre_and_recv_hash, if_neg (by simp [hens])]
    cases recvUntilNewline net.events [] <;> rfl
  · intro sockBefore net pre buf hens hrecv
    rw [send_pre_and_recv_hash, if_neg (by simp [hens]), hrecv]
    obtain ⟨datas, c, rest, he, hd, -, hcnl, hbuf⟩ :=
      recvUntilNewline_decomp net.events [] buf hrecv
    exact ⟨rfl, rfl, datas, c, rest, he, hd, hcnl, by simpa using hbuf⟩
  · intro sockBefore net pre hens hrecv
    rw [send_pre_and_recv_hash, if_neg (by simp [hens]), hrecv]
    exact ⟨rfl, rfl⟩
  · intro net pre rest hev hok
    rw [send_pre_and_recv_hash, if_neg (by simp [hok]), hev]
    rw [recvUntilNewline, if_pos rfl]
    exact ⟨rfl, rfl⟩

/-- C9 witness: a query whose response arrives split across two chunks,
and a query aborted by a zero-length read. -/
theorem oracle_client_query_witness :
    (send_pre_and_recv_hash true
      { connect_ok := false,
        events := [RecvEvent.chunk ['a', 'b'],
          RecvEvent.chunk ['c', '\n', 'z']] } ['p']).response =
      some (pyStrip ((['a', 'b', 'c', '\n', 'z'] : List Char).takeWhile
        (fun c => c != '\n'))) ∧
    (send_pre_and_recv_hash false
      { connect_ok := true,
        events := [RecvEvent.chunk []] } ['p']).response = none := by
  constructor
  · exact ((oracle_client_query.2.1 true
      { connect_ok := false,
        events := [RecvEvent.chunk ['a', 'b'],
          RecvEvent.chunk ['c', '\n', 'z']] } ['p']
      ['a', 'b', 'c', '\n', 'z'] (by decide) (by decide))).1
  · exact (oracle_client_query.2.2.2
      { connect_ok := true, events := [RecvEvent.chunk []] } ['p'] []
      rfl rfl).1

end Miner
